import Mathlib

/-!
Verification of the HarmonicScheduler core against its specification.

The definitions below are a shallow embedding of the C++ sources:
* `TaskTracker` and its methods embed `src/Model/TaskTracker.h`;
* `Registry` and its methods embed `src/Model/TaskRegistry.h`;
* `InterruptSignal.onInterrupt` / `InterruptSignal.runTask` embed
  `src/Task/InterruptSignalTask.h`;
* `BaseTrace` / `getTrace` embed `src/Scheduler/BaseProfiling.h`.

Machine `uint32_t` values are modelled as `Nat` reduced modulo `2^32`
(`U32`); wrapping subtraction `now - lastRun` is `wsub`.  Calls to
`Platform::GetTimestamp()` are modelled by an explicit `timestamp`
parameter.  Side effects on task objects (`ITask::Run`,
`ITask::OnTaskIdUpdated`) are made visible as data: `runIfTime` returns
the boolean that is `true` exactly when `Task->Run()` is invoked, and the
registry carries a `notified` map recording, for every task pointer, the
last value passed to `OnTaskIdUpdated`.  Task pointers are `Nat`, with
`0` playing the role of `nullptr`.
-/

namespace Harmonic

/-- `2^32`, the modulus of `uint32_t` arithmetic. -/
def U32 : Nat := 4294967296

/-- `UINT32_MAX`. -/
def UINT32_MAX : Nat := U32 - 1

/-- Modelled from the spec: the definition of `TASK_INVALID_ID` is not in
the provided sources (only its uses are).  The spec says the reserved
sentinel id is the all-ones value of the 8-bit id type, hence `255`. -/
def TASK_INVALID_ID : Nat := 255

/-- Wrapping `uint32_t` subtraction `a - b`. -/
def wsub (a b : Nat) : Nat := (a % U32 + (U32 - b % U32)) % U32

/-- Embeds `Harmonic::Platform::TaskTracker` (src/Model/TaskTracker.h).
`Task` is the task pointer (`0` = `nullptr`). -/
structure TaskTracker where
  Task : Nat := 0
  Period : Nat := 0
  LastRun : Nat := 0
  Enabled : Bool := false
deriving DecidableEq, Repr

namespace TaskTracker

/-- `TaskTracker::BindTask`: installs task, period and enabled state and,
iff enabling, sets `LastRun` to the current timestamp. -/
def bindTask (tr : TaskTracker) (task period : Nat) (enabled : Bool)
    (timestamp : Nat) : TaskTracker :=
  { tr with
    Task := task
    Period := period % U32
    Enabled := enabled
    LastRun := if enabled then timestamp % U32 else tr.LastRun }

/-- `TaskTracker::RunIfTime`: returns the `Task->Run()`-was-called boolean
together with the updated tracker.  `timestamp` is the value read from
`Platform::GetTimestamp()`. -/
def runIfTime (tr : TaskTracker) (timestamp : Nat) : Bool × TaskTracker :=
  if !tr.Enabled then
    (false, tr)
  else
    let period := tr.Period
    let elapsed := wsub timestamp tr.LastRun
    if period = 0 ∨ elapsed > period then
      if period > 1 ∧ (elapsed >>> 1) > period then
        (true, { tr with LastRun := timestamp % U32 })
      else
        (true, { tr with LastRun := (tr.LastRun + period) % U32 })
    else
      (false, tr)

/-- `TaskTracker::SetPeriod`. -/
def setPeriod (tr : TaskTracker) (period : Nat) : TaskTracker :=
  { tr with Period := period % U32 }

/-- `TaskTracker::SetEnabled`: on a false→true transition also sets
`LastRun` to the current timestamp. -/
def setEnabled (tr : TaskTracker) (enabled : Bool) (timestamp : Nat) :
    TaskTracker :=
  if enabled ∧ ¬tr.Enabled then
    { tr with LastRun := timestamp % U32, Enabled := enabled }
  else
    { tr with Enabled := enabled }

/-- `TaskTracker::SetPeriodAndEnabled`. -/
def setPeriodAndEnabled (tr : TaskTracker) (period : Nat) (enabled : Bool)
    (timestamp : Nat) : TaskTracker :=
  if enabled ∧ ¬tr.Enabled then
    { tr with LastRun := timestamp % U32, Period := period % U32,
              Enabled := enabled }
  else
    { tr with Period := period % U32, Enabled := enabled }

/-- `TaskTracker::Wake`. -/
def wake (tr : TaskTracker) : TaskTracker :=
  { tr with Period := 0, Enabled := true }

/-- `TaskTracker::IsEnabled`. -/
def isEnabled (tr : TaskTracker) : Bool := tr.Enabled

/-- `TaskTracker::GetPeriod`. -/
def getPeriod (tr : TaskTracker) : Nat := tr.Period

/-- `TaskTracker::TimeUntilNextRun`. -/
def timeUntilNextRun (tr : TaskTracker) (timestamp : Nat) : Nat :=
  let period := if tr.Enabled then tr.Period else UINT32_MAX
  if period = 0 then
    0
  else
    let elapsedSinceLastRun := wsub timestamp tr.LastRun
    if elapsedSinceLastRun ≥ period then
      0
    else
      period - elapsedSinceLastRun

end TaskTracker

end Harmonic

namespace Harmonic

/-- Case analysis of `runIfTime` as a single conditional expression. -/
theorem runIfTime_eq (tr : TaskTracker) (now : Nat) :
    tr.runIfTime now =
      if tr.Enabled = true then
        if tr.Period = 0 ∨ wsub now tr.LastRun > tr.Period then
          if 1 < tr.Period ∧ tr.Period < wsub now tr.LastRun >>> 1 then
            (true, { tr with LastRun := now % U32 })
          else
            (true, { tr with LastRun := (tr.LastRun + tr.Period) % U32 })
        else
          (false, tr)
      else
        (false, tr) := by
  unfold TaskTracker.runIfTime
  cases h : tr.Enabled <;> simp [h]

/-- C1: for every tracker, `RunIfTime` returns `false` without running the
task when the tracker is disabled; when enabled, it runs the task and
returns `true` (the returned boolean is `true` exactly when `Task->Run()`
is invoked) iff `period = 0` or `elapsed > period`, where
`elapsed = now - LastRun` in wrapping 32-bit arithmetic; in particular a
task with period `P > 0` never fires at `elapsed = P` (strict `>`). -/
theorem C1_runIfTime_fire_condition (tr : TaskTracker) (now : Nat) :
    (tr.Enabled = false → tr.runIfTime now = (false, tr)) ∧
    (tr.Enabled = true →
      ((tr.runIfTime now).1 = true ↔
        (tr.Period = 0 ∨ wsub now tr.LastRun > tr.Period))) ∧
    (0 < tr.Period → wsub now tr.LastRun = tr.Period →
      (tr.runIfTime now).1 = false) := by
  rw [runIfTime_eq]
  refine ⟨?_, ?_, ?_⟩
  · intro h
    simp [h]
  · intro h
    simp only [h, if_true]
    by_cases hf : tr.Period = 0 ∨ wsub now tr.LastRun > tr.Period
    · simp only [if_pos hf]
      constructor
      · intro _; exact hf
      · intro _
        split <;> simp
    · simp [if_neg hf, hf]
  · intro hp he
    have hf : ¬(tr.Period = 0 ∨ wsub now tr.LastRun > tr.Period) := by
      rw [he]; omega
    by_cases hE : tr.Enabled = true <;> simp [hE, if_neg hf]

/-- Witness for C1 at a concrete input: an enabled tracker with period 5
fires at elapsed 6. -/
theorem C1_witness :
    (({ Task := 1, Period := 5, LastRun := 0, Enabled := true } :
        TaskTracker).runIfTime 6).1 = true := by
  have h := C1_runIfTime_fire_condition
    { Task := 1, Period := 5, LastRun := 0, Enabled := true } 6
  exact (h.2.1 rfl).mpr (Or.inr (by decide))

/-- `wsub` only depends on its second argument modulo `2^32`. -/
theorem wsub_mod_right (a b : Nat) : wsub a (b % U32) = wsub a b := by
  unfold wsub
  rw [Nat.mod_mod_of_dvd b (dvd_refl U32)]

/-- C2 counterexample: with period 2 and elapsed `5 = 2·period + 1` the
tracker fires but does NOT resynchronize (`LastRun` becomes `0 + 2 = 2`,
not the current timestamp `5`), because the code tests
`(elapsed >> 1) > period`, which is `2 > 2`, false. -/
theorem C2_counterexample :
    ((({ Task := 1, Period := 2, LastRun := 0, Enabled := true } :
        TaskTracker).runIfTime 5).1 = true) ∧
    wsub 5 0 = 2 * 2 + 1 ∧
    ((({ Task := 1, Period := 2, LastRun := 0, Enabled := true } :
        TaskTracker).runIfTime 5).2.LastRun = 2) ∧
    (2 : Nat) ≠ 5 := by
  exact ⟨by decide, by decide, by decide, by decide⟩

/-- C2 (amended): for every enabled tracker that fires in `RunIfTime`,
`LastRun` is resynchronized to the current timestamp iff `period > 1` and
`elapsed ≥ 2·period + 2` (the code's `(elapsed >> 1) > period`); in every
other firing case — including `elapsed = 2·period + 1` — `LastRun` is
advanced by exactly `period` (phase-preserving). -/
theorem C2_amended_resync_threshold (tr : TaskTracker) (now : Nat)
    (hE : tr.Enabled = true)
    (hFire : (tr.runIfTime now).1 = true) :
    (tr.runIfTime now).2.LastRun =
      if 1 < tr.Period ∧ wsub now tr.LastRun ≥ 2 * tr.Period + 2 then
        now % U32
      else
        (tr.LastRun + tr.Period) % U32 := by
  rw [runIfTime_eq, if_pos hE] at hFire ⊢
  by_cases hf : tr.Period = 0 ∨ wsub now tr.LastRun > tr.Period
  · rw [if_pos hf] at hFire ⊢
    have hiff : (1 < tr.Period ∧ tr.Period < wsub now tr.LastRun >>> 1) ↔
        (1 < tr.Period ∧ wsub now tr.LastRun ≥ 2 * tr.Period + 2) := by
      rw [Nat.shiftRight_one]
      omega
    by_cases hr : 1 < tr.Period ∧ wsub now tr.LastRun ≥ 2 * tr.Period + 2
    · rw [if_pos (hiff.mpr hr), if_pos hr]
    · rw [if_neg (fun hc => hr (hiff.mp hc)), if_neg hr]
  · rw [if_neg hf] at hFire
    exact absurd hFire (by simp)

/-- Witness for C2 (amended): period 2, elapsed 7 ≥ 2·2+2, so the tracker
resynchronizes to the current timestamp. -/
theorem C2_witness :
    ((({ Task := 1, Period := 2, LastRun := 0, Enabled := true } :
        TaskTracker).runIfTime 7).2.LastRun = 7) := by
  have h := C2_amended_resync_threshold
    { Task := 1, Period := 2, LastRun := 0, Enabled := true } 7 rfl (by decide)
  rw [h]
  decide

/-- C4 (code bug evidence): the source's own doc comment says
`TimeUntilNextRun` "Returns UINT32_MAX if the task is disabled", but the
disabled path merely substitutes `period := UINT32_MAX` and falls through
to the subtraction: at elapsed 5 it returns `UINT32_MAX - 5`, and at
elapsed `UINT32_MAX` it even returns `0` (reporting a disabled task as
due now). -/
theorem C4_divergence_disabled_not_never :
    (({ Task := 1, Period := 7, LastRun := 0, Enabled := false } :
        TaskTracker).timeUntilNextRun 5 = UINT32_MAX - 5) ∧
    UINT32_MAX - 5 ≠ UINT32_MAX ∧
    (({ Task := 1, Period := 7, LastRun := 1, Enabled := false } :
        TaskTracker).timeUntilNextRun 0 = 0) := by
  exact ⟨by decide, by decide, by decide⟩

/-- C5: `SetEnabled(true)` and `SetPeriodAndEnabled(p, true)` set
`LastRun` to the current clock exactly when the tracker was previously
disabled; consequently a task enabled at time `t` with period `P` fires
post-enable only when `P = 0` or `now - t > P` (wrapping), i.e. no
earlier than `t + P`. -/
theorem C5_enable_resets_phase (tr : TaskTracker) (now : Nat) :
    ((tr.setEnabled true now).LastRun =
        if tr.Enabled then tr.LastRun else now % U32) ∧
    (∀ p, (tr.setPeriodAndEnabled p true now).LastRun =
        if tr.Enabled then tr.LastRun else now % U32) ∧
    (tr.Enabled = false → ∀ u,
      ((tr.setEnabled true now).runIfTime u).1 = true →
        tr.Period = 0 ∨ wsub u now > tr.Period) ∧
    (tr.Enabled = false → ∀ p u,
      ((tr.setPeriodAndEnabled p true now).runIfTime u).1 = true →
        p % U32 = 0 ∨ wsub u now > p % U32) := by
  refine ⟨?_, ?_, ?_, ?_⟩
  · cases h : tr.Enabled <;> simp [TaskTracker.setEnabled, h]
  · intro p
    cases h : tr.Enabled <;> simp [TaskTracker.setPeriodAndEnabled, h]
  · intro hE u hfire
    have h1 : tr.setEnabled true now =
        { tr with LastRun := now % U32, Enabled := true } := by
      simp [TaskTracker.setEnabled, hE]
    rw [h1, runIfTime_eq] at hfire
    by_cases hf : tr.Period = 0 ∨ wsub u (now % U32) > tr.Period
    · rw [wsub_mod_right] at hf
      exact hf
    · simp only [if_pos rfl, if_neg hf] at hfire
      exact absurd hfire (by simp)
  · intro hE p u hfire
    have h1 : tr.setPeriodAndEnabled p true now =
        { tr with LastRun := now % U32, Period := p % U32,
                  Enabled := true } := by
      simp [TaskTracker.setPeriodAndEnabled, hE]
    rw [h1, runIfTime_eq] at hfire
    by_cases hf : p % U32 = 0 ∨ wsub u (now % U32) > p % U32
    · rw [wsub_mod_right] at hf
      exact hf
    · simp only [if_pos rfl, if_neg hf] at hfire
      exact absurd hfire (by simp)

/-- Witness for C5: enabling a disabled tracker at time 100 anchors
`LastRun` at 100. -/
theorem C5_witness :
    ((({ Task := 1, Period := 4, LastRun := 9, Enabled := false } :
        TaskTracker).setEnabled true 100).LastRun = 100 % U32) := by
  have h := C5_enable_resets_phase
    { Task := 1, Period := 4, LastRun := 9, Enabled := false } 100
  rw [h.1]
  decide

namespace InterruptSignal

/-- `InterruptSignal::CallbackTask::OnInterrupt`
(src/Task/InterruptSignalTask.h): increments the counter unless it is at
`MaxValue`.  `maxValue` is the all-ones value of the counter type
`signal_t`. -/
def onInterrupt (maxValue s : Nat) : Nat :=
  if s ≠ maxValue then s + 1 else s

/-- `InterruptSignal::CallbackTask::Run`: snapshots and clears the
counter, calls the listener with the count when nonzero, then calls
`SetEnabled(InterruptSignal > 0)`.  Returns
`(new counter, listener call argument if any, new enabled state)`. -/
def runTask (s : Nat) (hasListener : Bool) : Nat × Option Nat × Bool :=
  let signal := s
  let s1 : Nat := 0
  let call := if 0 < signal ∧ hasListener = true then some signal else none
  let interruptPending := decide (0 < s1)
  (s1, call, interruptPending)

/-- `K` interrupts from a zero counter leave `min K maxValue`. -/
theorem onInterrupt_iterate (maxValue K : Nat) :
    (onInterrupt maxValue)^[K] 0 = min K maxValue := by
  induction K with
  | zero => simp
  | succ k ih =>
    rw [Function.iterate_succ_apply', ih]
    unfold onInterrupt
    split <;> omega

end InterruptSignal

/-- C8: starting from a zero counter, `K ≥ 1` calls to `OnInterrupt`
followed by one `Run` yield exactly one listener call whose count is `K`
when `K ≤ MAX` and `MAX` when `K > MAX` (saturation, never wrapping), and
the counter is zero after `Run`'s snapshot-and-clear (so the task also
disables itself). -/
theorem C8_signal_saturation (maxValue K : Nat) (hM : 1 ≤ maxValue)
    (hK : 1 ≤ K) :
    InterruptSignal.runTask ((InterruptSignal.onInterrupt maxValue)^[K] 0)
        true =
      (0, some (if K ≤ maxValue then K else maxValue), false) := by
  rw [InterruptSignal.onInterrupt_iterate]
  have h0 : 0 < min K maxValue := by omega
  simp [InterruptSignal.runTask, h0, Nat.min_def]
  split <;> omega

/-- Witness for C8: 3 interrupts on an 8-bit counter give one call with
count 3 and a cleared, disabled adapter. -/
theorem C8_witness :
    InterruptSignal.runTask ((InterruptSignal.onInterrupt 255)^[3] 0)
        true = (0, some 3, false) := by
  have h := C8_signal_saturation 255 3 (by decide) (by decide)
  simpa using h

/-- Embeds `Harmonic::Profiling::BaseTrace` (src/Model/Profiling.h). -/
structure BaseTrace where
  Iterations : Nat := 0
  Scheduling : Nat := 0
  Busy : Nat := 0
  IdleSleep : Nat := 0
deriving DecidableEq, Repr

/-- `SchedulerBaseProfiling::ClearTraceData`
(src/Scheduler/BaseProfiling.h): zeroes all accumulators. -/
def clearTraceData (_t : BaseTrace) : BaseTrace :=
  { Iterations := 0, Scheduling := 0, Busy := 0, IdleSleep := 0 }

/-- `SchedulerBaseProfiling::GetTrace`: returns `none` (false) when no
iterations accumulated; otherwise copies the trace out and clears the
accumulators.  The pair is `(copied-out trace, updated accumulator)`. -/
def getTrace (t : BaseTrace) : Option BaseTrace × BaseTrace :=
  if t.Iterations = 0 then
    (none, t)
  else
    (some t, clearTraceData t)

/-- C9: `GetTrace` returns false exactly when the accumulated iteration
count is zero; on success it copies the cumulative window values out and
zeroes all accumulators, so a second `GetTrace` immediately after a
successful one returns false. -/
theorem C9_getTrace_idempotence (t : BaseTrace) :
    ((getTrace t).1 = none ↔ t.Iterations = 0) ∧
    (∀ o, (getTrace t).1 = some o →
      o = t ∧ (getTrace t).2 = clearTraceData t) ∧
    ((getTrace t).1.isSome = true → (getTrace (getTrace t).2).1 = none) := by
  by_cases h : t.Iterations = 0 <;>
    simp [getTrace, clearTraceData, h, eq_comm]

/-- Witness for C9: after a successful `GetTrace` on a window with 2
iterations, an immediate second `GetTrace` reports no data. -/
theorem C9_witness :
    (getTrace (getTrace
      { Iterations := 2, Scheduling := 10, Busy := 3, IdleSleep := 1 }).2).1
      = none := by
  exact (C9_getTrace_idempotence
    { Iterations := 2, Scheduling := 10, Busy := 3, IdleSleep := 1 }).2.2
    (by decide)

/-- Embeds `Harmonic::TaskRegistry` (src/Model/TaskRegistry.h).  The
backing `TaskTracker` array is a function from slot index to tracker
(only indices below `capacity` are ever used); `count` is `TaskCount`,
`hot` the `Hot` flag.  `notified` records, for every task pointer, the
last value that was passed to that task's `OnTaskIdUpdated` callback
(`none` if it was never notified) — it embeds the observable effect of
`TaskTracker::NotifyTaskIdUpdate` on the task objects. -/
structure Registry where
  taskList : Nat → TaskTracker
  capacity : Nat
  count : Nat
  hot : Bool
  notified : Nat → Option Nat

namespace Registry

/-- `TaskTracker::NotifyTaskIdUpdate` applied to the tracker in slot `i`:
the task is told its new id, and if the id is the sentinel the tracker is
disabled. -/
def notifySlot (r : Registry) (i taskId : Nat) : Registry :=
  let tr := r.taskList i
  let r1 := { r with
    notified := (fun p => if p = tr.Task then some taskId else r.notified p) }
  if taskId = TASK_INVALID_ID then
    { r1 with taskList := (fun j =>
        if j = i then { tr with Enabled := false } else r1.taskList j) }
  else
    r1

/-- `TaskRegistry::TaskExists`: linear scan of the occupied prefix. -/
def taskExists (r : Registry) (task : Nat) : Bool :=
  (List.range r.count).any fun i => (r.taskList i).Task == task

/-- `TaskRegistry::GetTaskId`: index of the first slot holding `task`
(`none` models the `false` return with the out-parameter left at the
sentinel). -/
def getTaskId (r : Registry) (task : Nat) : Option Nat :=
  (List.range r.count).find? fun i => (r.taskList i).Task == task

/-- `TaskRegistry::Attach`: rejects a null task, a full registry, or a
duplicate; otherwise binds slot `TaskCount`, notifies the task of its new
id, flags `Hot` and increments the count.  `timestamp` models the
`Platform::GetTimestamp()` read inside `BindTask`. -/
def attach (r : Registry) (task period : Nat) (enabled : Bool)
    (timestamp : Nat) : Bool × Registry :=
  if task = 0 ∨ r.capacity ≤ r.count ∨ r.taskExists task then
    (false, r)
  else
    let taskId := r.count
    let r1 := { r with taskList := (fun j =>
      if j = taskId then
        (r.taskList taskId).bindTask task period enabled timestamp
      else r.taskList j) }
    let r2 := r1.notifySlot taskId taskId
    (true, { r2 with hot := true, count := r2.count + 1 })

/-- The body of `TaskRegistry::Detach`'s shift loop
(`for i in [taskId, TaskCount-1): TaskList[i] = TaskList[i+1]; notify i`),
with `fuel` the number of remaining iterations. -/
def shiftLoop (r : Registry) (i fuel : Nat) : Registry :=
  match fuel with
  | 0 => r
  | Nat.succ fuel =>
    let r1 := { r with taskList := (fun j =>
      if j = i then r.taskList (i + 1) else r.taskList j) }
    let r2 := r1.notifySlot i i
    shiftLoop r2 (i + 1) fuel

/-- `TaskRegistry::Detach(taskId)`: rejects an out-of-range id; notifies
the removed task with the sentinel, shifts the suffix left by one
renotifying moved tasks, decrements the count and flags `Hot`. -/
def detachId (r : Registry) (taskId : Nat) : Bool × Registry :=
  if r.count ≤ taskId then
    (false, r)
  else
    let r1 := r.notifySlot taskId TASK_INVALID_ID
    let r2 := r1.shiftLoop taskId (r1.count - 1 - taskId)
    (true, { r2 with count := r2.count - 1, hot := true })

/-- `TaskRegistry::Detach(task)`: looks the pointer up and delegates. -/
def detachTask (r : Registry) (task : Nat) : Bool × Registry :=
  match r.getTaskId task with
  | none => (false, r)
  | some taskId => r.detachId taskId

/-- The body of `TaskRegistry::Clear`'s loop: notify each registered task
with the sentinel id. -/
def clearLoop (r : Registry) (i fuel : Nat) : Registry :=
  match fuel with
  | 0 => r
  | Nat.succ fuel => clearLoop (r.notifySlot i TASK_INVALID_ID) (i + 1) fuel

/-- `TaskRegistry::Clear`: notifies every registered task with the
sentinel, flags `Hot` and zeroes the count. -/
def clear (r : Registry) : Registry :=
  let r1 := r.clearLoop 0 r.count
  { r1 with hot := true, count := 0 }

/-- `TaskRegistry::ValidateTaskId` (without `HARMONIC_OPTIMIZATIONS`):
rejects the sentinel and any id at or above the count. -/
def validateTaskId (r : Registry) (taskId : Nat) : Bool :=
  if taskId = TASK_INVALID_ID then false
  else if r.count ≤ taskId then false
  else true

/-- `TaskRegistry::SetPeriod` with validation compiled in. -/
def setPeriod (r : Registry) (taskId delay : Nat) : Registry :=
  if r.validateTaskId taskId = false then r
  else
    { r with
      taskList := (fun j =>
        if j = taskId then (r.taskList taskId).setPeriod delay
        else r.taskList j),
      hot := true }

/-- `TaskRegistry::SetEnabled` with validation compiled in. -/
def setEnabled (r : Registry) (taskId : Nat) (enabled : Bool)
    (timestamp : Nat) : Registry :=
  if r.validateTaskId taskId = false then r
  else
    { r with
      taskList := (fun j =>
        if j = taskId then (r.taskList taskId).setEnabled enabled timestamp
        else r.taskList j),
      hot := true }

/-- `TaskRegistry::SetPeriodAndEnabled` with validation compiled in. -/
def setPeriodAndEnabled (r : Registry) (taskId delay : Nat)
    (enabled : Bool) (timestamp : Nat) : Registry :=
  if r.validateTaskId taskId = false then r
  else
    { r with
      taskList := (fun j =>
        if j = taskId then
          (r.taskList taskId).setPeriodAndEnabled delay enabled timestamp
        else r.taskList j),
      hot := true }

/-- `TaskRegistry::WakeFromISR` with validation compiled in: directly
sets `Period = 0`, `Enabled = true` on the tracker and flags `Hot`. -/
def wakeFromISR (r : Registry) (taskId : Nat) : Registry :=
  if r.validateTaskId taskId = false then r
  else
    { r with
      taskList := (fun j =>
        if j = taskId then
          { r.taskList taskId with Period := 0, Enabled := true }
        else r.taskList j),
      hot := true }

/-- `TaskRegistry::IsEnabled`: false for out-of-range ids. -/
def isEnabled (r : Registry) (taskId : Nat) : Bool :=
  if r.count ≤ taskId then false
  else (r.taskList taskId).isEnabled

/-- `TaskRegistry::GetPeriod`: `UINT32_MAX` for out-of-range ids. -/
def getPeriod (r : Registry) (taskId : Nat) : Nat :=
  if r.count ≤ taskId then UINT32_MAX
  else (r.taskList taskId).getPeriod

/-- The task pointers registered in the occupied prefix, in slot order. -/
def registered (r : Registry) : List Nat :=
  (List.range r.count).map fun i => (r.taskList i).Task

end Registry

/-- `notifySlot` with a non-sentinel id only records the notification. -/
theorem notifySlot_not_sentinel (r : Registry) (i taskId : Nat)
    (h : taskId ≠ TASK_INVALID_ID) :
    r.notifySlot i taskId =
      { r with notified := (fun p =>
          if p = (r.taskList i).Task then some taskId else r.notified p) } := by
  simp only [Registry.notifySlot, if_neg h]

/-- `notifySlot` with the sentinel id records the notification and
disables the tracker in the slot. -/
theorem notifySlot_sentinel (r : Registry) (i : Nat) :
    r.notifySlot i TASK_INVALID_ID =
      { r with
        notified := (fun p =>
          if p = (r.taskList i).Task then some TASK_INVALID_ID
          else r.notified p),
        taskList := (fun j =>
          if j = i then { r.taskList i with Enabled := false }
          else r.taskList j) } := by
  simp [Registry.notifySlot]

/-- `Attach` failure equation. -/
theorem attach_fail_eq (r : Registry) (task period : Nat) (enabled : Bool)
    (ts : Nat)
    (hc : task = 0 ∨ r.capacity ≤ r.count ∨ r.taskExists task = true) :
    r.attach task period enabled ts = (false, r) := by
  unfold Registry.attach
  rw [if_pos (by simpa using hc)]

/-- `Attach` success equation. -/
theorem attach_ok_eq (r : Registry) (task period : Nat) (enabled : Bool)
    (ts : Nat) (hns : r.count ≠ TASK_INVALID_ID)
    (hc : ¬(task = 0 ∨ r.capacity ≤ r.count ∨ r.taskExists task = true)) :
    r.attach task period enabled ts =
      (true,
        { taskList := (fun j =>
            if j = r.count then
              (r.taskList r.count).bindTask task period enabled ts
            else r.taskList j),
          capacity := r.capacity,
          count := r.count + 1,
          hot := true,
          notified := (fun p =>
            if p = task then some r.count else r.notified p) }) := by
  unfold Registry.attach
  rw [if_neg (by simpa using hc)]
  simp [notifySlot_not_sentinel _ _ _ hns, TaskTracker.bindTask]

/-- C6: `Attach` returns false leaving the registry unchanged exactly
when the task is null, already registered, or the registry is full; on
success it binds the task at slot `TaskCount`, records the notification
of id `TaskCount` to the task, increments the count and asserts `Hot`,
leaving everything else unchanged. -/
theorem C6_attach_contract (r : Registry) (task period : Nat)
    (enabled : Bool) (ts : Nat)
    (hcount : r.count ≤ r.capacity) (hcap : r.capacity ≤ TASK_INVALID_ID) :
    ((r.attach task period enabled ts).1 = false ↔
      (task = 0 ∨ r.taskExists task = true ∨ r.count = r.capacity)) ∧
    ((r.attach task period enabled ts).1 = false →
      (r.attach task period enabled ts).2 = r) ∧
    ((r.attach task period enabled ts).1 = true →
      (r.attach task period enabled ts).2 =
        { taskList := (fun j =>
            if j = r.count then
              (r.taskList r.count).bindTask task period enabled ts
            else r.taskList j),
          capacity := r.capacity,
          count := r.count + 1,
          hot := true,
          notified := (fun p =>
            if p = task then some r.count else r.notified p) }) := by
  by_cases hc : task = 0 ∨ r.capacity ≤ r.count ∨ r.taskExists task = true
  · rw [attach_fail_eq r task period enabled ts hc]
    refine ⟨?_, fun _ => rfl, fun h => absurd h (by simp)⟩
    simp only [true_iff]
    rcases hc with h | h | h
    · exact Or.inl h
    · exact Or.inr (Or.inr (le_antisymm hcount h))
    · exact Or.inr (Or.inl h)
  · have hlt : r.count < r.capacity := by
      rcases Nat.lt_or_ge r.count r.capacity with h | h
      · exact h
      · exact absurd (Or.inr (Or.inl h)) hc
    have hns : r.count ≠ TASK_INVALID_ID := by omega
    rw [attach_ok_eq r task period enabled ts hns hc]
    refine ⟨⟨fun h => absurd h (by simp), fun h => ?_⟩,
      fun h => absurd h (by simp), fun _ => rfl⟩
    exfalso
    rcases h with h | h | h
    · exact hc (Or.inl h)
    · exact hc (Or.inr (Or.inr h))
    · omega

/-- Witness for C6: attaching task 1 to an empty 4-slot registry
succeeds and ends with count 1. -/
theorem C6_witness :
    ((Registry.mk (fun _ => {}) 4 0 false (fun _ => none)).attach
        1 10 true 0).2.count = 1 := by
  have h := C6_attach_contract (Registry.mk (fun _ => {}) 4 0 false
    (fun _ => none)) 1 10 true 0 (by decide) (by decide)
  rw [h.2.2 (by decide)]

/-- C7: with optimizations disabled, every registry mutator called with
the sentinel id or an id at or above the count is a silent no-op: the
whole registry state (hence every tracker's period, enabled and last-run
fields and the count) is unchanged. -/
theorem C7_invalid_id_mutators_noop (r : Registry) (taskId delay : Nat)
    (enabled : Bool) (ts : Nat)
    (h : taskId = TASK_INVALID_ID ∨ r.count ≤ taskId) :
    r.setPeriod taskId delay = r ∧
    r.setEnabled taskId enabled ts = r ∧
    r.setPeriodAndEnabled taskId delay enabled ts = r ∧
    r.wakeFromISR taskId = r := by
  have hv : r.validateTaskId taskId = false := by
    unfold Registry.validateTaskId
    rcases h with h | h
    · rw [if_pos h]
    · by_cases hs : taskId = TASK_INVALID_ID
      · rw [if_pos hs]
      · rw [if_neg hs, if_pos h]
  refine ⟨?_, ?_, ?_, ?_⟩ <;>
    simp [Registry.setPeriod, Registry.setEnabled,
      Registry.setPeriodAndEnabled, Registry.wakeFromISR, hv]

/-- Witness for C7: `SetPeriod` on id 7 of an empty registry changes
nothing. -/
theorem C7_witness :
    (Registry.mk (fun _ => {}) 4 0 false (fun _ => none)).setPeriod 7 50 =
      Registry.mk (fun _ => {}) 4 0 false (fun _ => none) := by
  exact (C7_invalid_id_mutators_noop _ 7 50 true 0 (Or.inr (by decide))).1

/-- C10: the observers are total with fixed out-of-range results —
`IsEnabled` returns `false` and `GetPeriod` returns `UINT32_MAX` for
every id at or above the count. -/
theorem C10_observers_out_of_range (r : Registry) (taskId : Nat)
    (h : r.count ≤ taskId) :
    r.isEnabled taskId = false ∧ r.getPeriod taskId = UINT32_MAX := by
  constructor <;> simp [Registry.isEnabled, Registry.getPeriod, if_pos h, h]

/-- Witness for C10: id 9 on an empty registry reads as disabled with
period `UINT32_MAX`. -/
theorem C10_witness :
    (Registry.mk (fun _ => {}) 4 0 false (fun _ => none)).isEnabled 9 =
      false := by
  exact (C10_observers_out_of_range _ 9 (by decide)).1

/-! ### Sequences of registry-structure operations (for C3) -/

/-- The registry-structure operations of the claim: `Attach`, `Detach`
(by id and by pointer) and `Clear`. -/
inductive Op where
  | attach (task period : Nat) (enabled : Bool) (timestamp : Nat)
  | detachId (taskId : Nat)
  | detachTask (task : Nat)
  | clear

/-- One operation applied to the registry, paired with the ghost list of
tasks "attach'd minus detach'd" maintained in the spec's words: a
successful attach adds the task, a successful detach removes it, clear
empties it. -/
def applyOp (st : Registry × List Nat) (op : Op) : Registry × List Nat :=
  match op with
  | Op.attach t p e ts =>
      let res := st.1.attach t p e ts
      (res.2, if res.1 then st.2 ++ [t] else st.2)
  | Op.detachId i =>
      let t := (st.1.taskList i).Task
      let res := st.1.detachId i
      (res.2, if res.1 then st.2.erase t else st.2)
  | Op.detachTask t =>
      let res := st.1.detachTask t
      (res.2, if res.1 then st.2.erase t else st.2)
  | Op.clear => (st.1.clear, [])

/-- A freshly constructed registry with the given capacity. -/
def initRegistry (cap : Nat) : Registry :=
  { taskList := fun _ => {}, capacity := cap, count := 0, hot := false,
    notified := fun _ => none }

/-- Run a sequence of operations from the initial state. -/
def runOps (cap : Nat) (ops : List Op) : Registry × List Nat :=
  ops.foldl applyOp (initRegistry cap, [])

/-- The C3 invariant: the count fits the capacity; the occupied slots are
exactly the contiguous prefix `[0, count)` and each of them holds a
non-null task; the registered tasks (in slot order) are pairwise distinct
and coincide with the ghost "attach'd minus detach'd" list; every
registered task was last notified of its current slot index; and every
non-null task that is not registered was last notified (if ever) of the
sentinel id. -/
def Inv (r : Registry) (S : List Nat) : Prop :=
  r.capacity ≤ TASK_INVALID_ID ∧
  r.count ≤ r.capacity ∧
  r.registered = S ∧
  r.registered.Nodup ∧
  (∀ i, i < r.count → (r.taskList i).Task ≠ 0) ∧
  (∀ i, i < r.count → r.notified ((r.taskList i).Task) = some i) ∧
  (∀ t, t ≠ 0 → t ∉ r.registered →
    r.notified t = none ∨ r.notified t = some TASK_INVALID_ID)

/-! #### Small registry lemmas -/

theorem notifySlot_capacity (r : Registry) (i taskId : Nat) :
    (r.notifySlot i taskId).capacity = r.capacity := by
  unfold Registry.notifySlot
  split <;> rfl

theorem notifySlot_count (r : Registry) (i taskId : Nat) :
    (r.notifySlot i taskId).count = r.count := by
  unfold Registry.notifySlot
  split <;> rfl

theorem notifySlot_task (r : Registry) (i taskId j : Nat) :
    ((r.notifySlot i taskId).taskList j).Task = (r.taskList j).Task := by
  unfold Registry.notifySlot
  split
  · by_cases h : j = i <;> simp [h]
  · rfl

theorem notifySlot_notified (r : Registry) (i taskId : Nat) :
    (r.notifySlot i taskId).notified = fun p =>
      if p = (r.taskList i).Task then some taskId else r.notified p := by
  unfold Registry.notifySlot
  split <;> rfl

theorem notifySlot_notified_apply (r : Registry) (i taskId p : Nat) :
    (r.notifySlot i taskId).notified p =
      if p = (r.taskList i).Task then some taskId else r.notified p := by
  rw [notifySlot_notified]

theorem mem_registered (r : Registry) (t : Nat) :
    t ∈ r.registered ↔ ∃ i, i < r.count ∧ (r.taskList i).Task = t := by
  simp [Registry.registered, List.mem_map, List.mem_range]

theorem registered_length (r : Registry) :
    r.registered.length = r.count := by
  simp [Registry.registered]

theorem taskExists_true_iff (r : Registry) (t : Nat) :
    r.taskExists t = true ↔ t ∈ r.registered := by
  rw [mem_registered]
  simp [Registry.taskExists, List.any_eq_true, List.mem_range]

theorem getTaskId_some (r : Registry) (t i : Nat)
    (h : r.getTaskId t = some i) :
    i < r.count ∧ (r.taskList i).Task = t := by
  unfold Registry.getTaskId at h
  have h1 := List.mem_of_find?_eq_some h
  have h2 := List.find?_some h
  exact ⟨List.mem_range.mp h1, by simpa using h2⟩

theorem getTaskId_none (r : Registry) (t : Nat)
    (h : r.getTaskId t = none) : t ∉ r.registered := by
  unfold Registry.getTaskId at h
  rw [List.find?_eq_none] at h
  rw [mem_registered]
  rintro ⟨i, hi, ht⟩
  exact absurd (by simpa using ht)
    (by simpa using h i (List.mem_range.mpr hi))

/-! #### Characterization of the detach shift loop -/

theorem shiftLoop_capacity (fuel : Nat) : ∀ (r : Registry) (i : Nat),
    (r.shiftLoop i fuel).capacity = r.capacity := by
  induction fuel with
  | zero => intro r i; rfl
  | succ fuel ih =>
    intro r i
    simp only [Registry.shiftLoop]
    rw [ih, notifySlot_capacity]

theorem shiftLoop_count (fuel : Nat) : ∀ (r : Registry) (i : Nat),
    (r.shiftLoop i fuel).count = r.count := by
  induction fuel with
  | zero => intro r i; rfl
  | succ fuel ih =>
    intro r i
    simp only [Registry.shiftLoop]
    rw [ih, notifySlot_count]

theorem shiftLoop_task (fuel : Nat) : ∀ (r : Registry) (i j : Nat),
    ((r.shiftLoop i fuel).taskList j).Task =
      if i ≤ j ∧ j < i + fuel then (r.taskList (j + 1)).Task
      else (r.taskList j).Task := by
  induction fuel with
  | zero =>
    intro r i j
    have h : ¬(i ≤ j ∧ j < i + 0) := by omega
    simp only [Registry.shiftLoop, if_neg h]
  | succ fuel ih =>
    intro r i j
    simp only [Registry.shiftLoop]
    rw [ih]
    by_cases h1 : i + 1 ≤ j ∧ j < i + 1 + fuel
    · rw [if_pos h1, notifySlot_task]
      have hne : j + 1 ≠ i := by omega
      simp only [if_neg hne]
      have hc : i ≤ j ∧ j < i + (fuel + 1) := by omega
      rw [if_pos hc]
    · rw [if_neg h1, notifySlot_task]
      by_cases h2 : j = i
      · subst h2
        simp only [if_pos rfl]
        have hc : j ≤ j ∧ j < j + (fuel + 1) := by omega
        rw [if_pos hc]
        simp
      · simp only [if_neg h2]
        have hc : ¬(i ≤ j ∧ j < i + (fuel + 1)) := by omega
        rw [if_neg hc]

theorem shiftLoop_notified_other (fuel : Nat) : ∀ (r : Registry) (i t : Nat),
    (∀ k, i ≤ k → k < i + fuel → (r.taskList (k + 1)).Task ≠ t) →
    (r.shiftLoop i fuel).notified t = r.notified t := by
  induction fuel with
  | zero => intro r i t _; rfl
  | succ fuel ih =>
    intro r i t h
    simp only [Registry.shiftLoop]
    refine (ih _ (i + 1) t ?_).trans ?_
    · intro k hk1 hk2
      rw [notifySlot_task]
      have hne : k + 1 ≠ i := by omega
      simp only [if_neg hne]
      exact h k (by omega) (by omega)
    · rw [notifySlot_notified_apply]
      have ht : (r.taskList (i + 1)).Task ≠ t := h i (le_refl i) (by omega)
      simp [Ne.symm ht]

theorem shiftLoop_notified_moved (fuel : Nat) : ∀ (r : Registry) (i j : Nat),
    i ≤ j → j < i + fuel →
    (∀ k, j < k → k < i + fuel →
      (r.taskList (k + 1)).Task ≠ (r.taskList (j + 1)).Task) →
    (r.shiftLoop i fuel).notified ((r.taskList (j + 1)).Task) = some j := by
  induction fuel with
  | zero => intro r i j h1 h2 _; omega
  | succ fuel ih =>
    intro r i j h1 h2 hdist
    simp only [Registry.shiftLoop]
    by_cases hj : j = i
    · subst hj
      refine (shiftLoop_notified_other fuel _ (j + 1) _ ?_).trans ?_
      · intro k hk1 hk2
        rw [notifySlot_task]
        have hne : k + 1 ≠ j := by omega
        simp only [if_neg hne]
        exact hdist k (by omega) (by omega)
      · rw [notifySlot_notified_apply]
        simp
    · have hτ : ∀ x, x ≠ j →
          ((({ r with taskList := (fun j' =>
              if j' = j then r.taskList (j + 1) else r.taskList j') } :
                Registry).notifySlot j j).taskList x).Task =
            (r.taskList x).Task := by
        intro x hx
        rw [notifySlot_task]
        simp only [if_neg hx]
      -- `j ≠ i` here, so the loop starts strictly below `j`.
      have hij : i + 1 ≤ j := by omega
      have hmain := ih (({ r with taskList := (fun j' =>
          if j' = i then r.taskList (i + 1) else r.taskList j') } :
            Registry).notifySlot i i) (i + 1) j hij (by omega) ?_
      · have hx : ((({ r with taskList := (fun j' =>
            if j' = i then r.taskList (i + 1) else r.taskList j') } :
              Registry).notifySlot i i).taskList (j + 1)).Task =
            (r.taskList (j + 1)).Task := by
          rw [notifySlot_task]
          have hne : j + 1 ≠ i := by omega
          simp only [if_neg hne]
        rw [← hx]
        exact hmain
      · intro k hk1 hk2
        rw [notifySlot_task, notifySlot_task]
        have hne1 : k + 1 ≠ i := by omega
        have hne2 : j + 1 ≠ i := by omega
        simp only [if_neg hne1, if_neg hne2]
        exact hdist k (by omega) (by omega)

/-! #### Characterization of the clear loop -/

theorem clearLoop_capacity (fuel : Nat) : ∀ (r : Registry) (i : Nat),
    (r.clearLoop i fuel).capacity = r.capacity := by
  induction fuel with
  | zero => intro r i; rfl
  | succ fuel ih =>
    intro r i
    simp only [Registry.clearLoop]
    rw [ih, notifySlot_capacity]

theorem clearLoop_count (fuel : Nat) : ∀ (r : Registry) (i : Nat),
    (r.clearLoop i fuel).count = r.count := by
  induction fuel with
  | zero => intro r i; rfl
  | succ fuel ih =>
    intro r i
    simp only [Registry.clearLoop]
    rw [ih, notifySlot_count]

theorem clearLoop_task (fuel : Nat) : ∀ (r : Registry) (i j : Nat),
    ((r.clearLoop i fuel).taskList j).Task = (r.taskList j).Task := by
  induction fuel with
  | zero => intro r i j; rfl
  | succ fuel ih =>
    intro r i j
    simp only [Registry.clearLoop]
    rw [ih, notifySlot_task]

theorem clearLoop_notified_other (fuel : Nat) : ∀ (r : Registry) (i t : Nat),
    (∀ k, i ≤ k → k < i + fuel → (r.taskList k).Task ≠ t) →
    (r.clearLoop i fuel).notified t = r.notified t := by
  induction fuel with
  | zero => intro r i t _; rfl
  | succ fuel ih =>
    intro r i t h
    simp only [Registry.clearLoop]
    refine (ih _ (i + 1) t ?_).trans ?_
    · intro k hk1 hk2
      rw [notifySlot_task]
      exact h k (by omega) (by omega)
    · rw [notifySlot_notified_apply]
      have ht : (r.taskList i).Task ≠ t := h i (le_refl i) (by omega)
      rw [if_neg (Ne.symm ht)]

theorem clearLoop_notified_in (fuel : Nat) : ∀ (r : Registry) (i j : Nat),
    i ≤ j → j < i + fuel →
    (∀ k, j < k → k < i + fuel →
      (r.taskList k).Task ≠ (r.taskList j).Task) →
    (r.clearLoop i fuel).notified ((r.taskList j).Task) =
      some TASK_INVALID_ID := by
  induction fuel with
  | zero => intro r i j h1 h2 _; omega
  | succ fuel ih =>
    intro r i j h1 h2 hdist
    simp only [Registry.clearLoop]
    by_cases hj : j = i
    · subst hj
      refine (clearLoop_notified_other fuel _ (j + 1) _ ?_).trans ?_
      · intro k hk1 hk2
        rw [notifySlot_task]
        exact hdist k (by omega) (by omega)
      · rw [notifySlot_notified_apply]
        rw [if_pos rfl]
    · have hij : i + 1 ≤ j := by omega
      have hmain := ih (r.notifySlot i TASK_INVALID_ID) (i + 1) j hij
        (by omega) ?_
      · have hx : ((r.notifySlot i TASK_INVALID_ID).taskList j).Task =
            (r.taskList j).Task := notifySlot_task r i TASK_INVALID_ID j
        rw [← hx]
        exact hmain
      · intro k hk1 hk2
        rw [notifySlot_task, notifySlot_task]
        exact hdist k (by omega) (by omega)

/-- Nodup of the registered list as injectivity of the slot-task map. -/
theorem registered_nodup_iff (r : Registry) :
    r.registered.Nodup ↔
      ∀ i j, i < r.count → j < r.count →
        (r.taskList i).Task = (r.taskList j).Task → i = j := by
  unfold Registry.registered
  rw [List.nodup_map_iff_inj_on (List.nodup_range _)]
  constructor
  · intro h i j hi hj hij
    exact h i (List.mem_range.mpr hi) j (List.mem_range.mpr hj) hij
  · intro h i hi j hj hij
    exact h i j (List.mem_range.mp hi) (List.mem_range.mp hj) hij

theorem registered_getElem (r : Registry) (j : Nat) (hj : j < r.count) :
    r.registered.get ⟨j, by simpa [registered_length]⟩ =
      (r.taskList j).Task := by
  simp [Registry.registered]

/-- Erasing the element at a position of a duplicate-free list drops
exactly that position. -/
theorem erase_get_nodup : ∀ (l : List Nat) (k : Nat) (hk : k < l.length),
    l.Nodup → l.erase (l.get ⟨k, hk⟩) = l.take k ++ l.drop (k + 1) := by
  intro l
  induction l with
  | nil => intro k hk _; simp at hk
  | cons a l ih =>
    intro k hk hnd
    cases k with
    | zero => simp
    | succ k =>
      have hk' : k < l.length := by simpa using hk
      have hget : (a :: l).get ⟨k + 1, hk⟩ = l.get ⟨k, hk'⟩ := rfl
      have hmem : l.get ⟨k, hk'⟩ ∈ l := List.get_mem l k hk'
      have hne : ¬(a == l.get ⟨k, hk'⟩) = true := by
        simp only [beq_iff_eq]
        intro h
        exact (List.nodup_cons.mp hnd).1 (h ▸ hmem)
      rw [hget, List.erase_cons_tail hne,
        ih k hk' (List.nodup_cons.mp hnd).2]
      simp [List.take_succ_cons, List.drop_succ_cons]

/-- Dropping one position of a list is a sublist. -/
theorem take_drop_succ_sublist (l : List Nat) (k : Nat) (hk : k < l.length) :
    (l.take k ++ l.drop (k + 1)).Sublist l := by
  have h1 : (l.drop (k + 1)).Sublist (l.drop k) := by
    rw [List.drop_eq_getElem_cons hk]
    exact List.sublist_cons_self _ _
  have h2 := h1.append_left (l.take k)
  rwa [List.take_append_drop] at h2

/-- The per-operation characterization of `Detach(id)` on a registry
whose prefix holds pairwise-distinct tasks. -/
theorem detach_result_char (r : Registry) (k : Nat) (hk : k < r.count)
    (hinj : ∀ i j, i < r.count → j < r.count →
      (r.taskList i).Task = (r.taskList j).Task → i = j) :
    (r.detachId k).1 = true ∧
    (r.detachId k).2.capacity = r.capacity ∧
    (r.detachId k).2.count = r.count - 1 ∧
    (∀ j, ((r.detachId k).2.taskList j).Task =
      if k ≤ j ∧ j < r.count - 1 then (r.taskList (j + 1)).Task
      else (r.taskList j).Task) ∧
    (∀ i, i < k →
      (r.detachId k).2.notified ((r.taskList i).Task) =
        r.notified ((r.taskList i).Task)) ∧
    (∀ i, k ≤ i → i < r.count - 1 →
      (r.detachId k).2.notified ((r.taskList (i + 1)).Task) = some i) ∧
    ((r.detachId k).2.notified ((r.taskList k).Task) =
      some TASK_INVALID_ID) ∧
    (∀ t, (∀ i, i < r.count → (r.taskList i).Task ≠ t) →
      (r.detachId k).2.notified t = r.notified t) := by
  have hni : ¬ r.count ≤ k := by omega
  simp only [Registry.detachId, if_neg hni]
  refine ⟨trivial, ?_, ?_, ?_, ?_, ?_, ?_, ?_⟩
  · rw [shiftLoop_capacity, notifySlot_capacity]
  · rw [shiftLoop_count, notifySlot_count]
  · intro j
    rw [shiftLoop_task]
    simp only [notifySlot_task, notifySlot_count]
    by_cases hc : k ≤ j ∧ j < r.count - 1
    · have hc2 : k ≤ j ∧ j < k + (r.count - 1 - k) := by omega
      rw [if_pos hc2, if_pos hc]
    · have hc2 : ¬(k ≤ j ∧ j < k + (r.count - 1 - k)) := by omega
      rw [if_neg hc2, if_neg hc]
  · intro i hi
    rw [shiftLoop_notified_other]
    · rw [notifySlot_notified_apply]
      have hik : i ≠ k := by omega
      rw [if_neg (fun h => hik (hinj i k (by omega) hk h))]
    · intro m hm1 hm2
      rw [notifySlot_count] at hm2
      rw [notifySlot_task]
      intro h
      have := hinj (m + 1) i (by omega) (by omega) h
      omega
  · intro i hi1 hi2
    have hx : ((r.notifySlot k TASK_INVALID_ID).taskList (i + 1)).Task =
        (r.taskList (i + 1)).Task := notifySlot_task _ _ _ _
    rw [← hx]
    rw [shiftLoop_notified_moved]
    · exact hi1
    · rw [notifySlot_count]
      omega
    · intro m hm1 hm2
      rw [notifySlot_count] at hm2
      rw [notifySlot_task, notifySlot_task]
      intro h
      have := hinj (m + 1) (i + 1) (by omega) (by omega) h
      omega
  · rw [shiftLoop_notified_other]
    · rw [notifySlot_notified_apply, if_pos rfl]
    · intro m hm1 hm2
      rw [notifySlot_count] at hm2
      rw [notifySlot_task]
      intro h
      have := hinj (m + 1) k (by omega) hk h
      omega
  · intro t ht
    rw [shiftLoop_notified_other]
    · rw [notifySlot_notified_apply]
      rw [if_neg (fun h => ht k hk h.symm)]
    · intro m hm1 hm2
      rw [notifySlot_count] at hm2
      rw [notifySlot_task]
      exact ht (m + 1) (by omega)

/-! #### Invariant preservation -/

/-- `Attach` preserves the invariant, with the ghost list gaining the
task exactly on success. -/
theorem attach_inv (r : Registry) (S : List Nat) (t p : Nat) (e : Bool)
    (ts : Nat) (hInv : Inv r S) :
    Inv (r.attach t p e ts).2
      (if (r.attach t p e ts).1 then S ++ [t] else S) := by
  obtain ⟨hcap, hcount, hreg, hnd, hzero, hnot, hunreg⟩ := hInv
  by_cases hc : t = 0 ∨ r.capacity ≤ r.count ∨ r.taskExists t = true
  · rw [attach_fail_eq r t p e ts hc]
    simpa using ⟨hcap, hcount, hreg, hnd, hzero, hnot, hunreg⟩
  · have hlt : r.count < r.capacity := by
      rcases Nat.lt_or_ge r.count r.capacity with h | h
      · exact h
      · exact absurd (Or.inr (Or.inl h)) hc
    have hns : r.count ≠ TASK_INVALID_ID := by omega
    have ht0 : t ≠ 0 := fun h => hc (Or.inl h)
    have htnotin : t ∉ r.registered := by
      intro hmem
      exact hc (Or.inr (Or.inr ((taskExists_true_iff r t).mpr hmem)))
    rw [attach_ok_eq r t p e ts hns hc]
    simp only [if_pos rfl]
    have hreg' :
        (Registry.mk
          (fun j => if j = r.count then
            (r.taskList r.count).bindTask t p e ts else r.taskList j)
          r.capacity (r.count + 1) true
          (fun q => if q = t then some r.count else r.notified q)).registered
          = r.registered ++ [t] := by
      unfold Registry.registered
      rw [List.range_succ, List.map_append]
      congr 1
      · apply List.map_congr_left
        intro j hj
        rw [List.mem_range] at hj
        have : j ≠ r.count := by omega
        simp [this]
      · simp [TaskTracker.bindTask]
    refine ⟨hcap, ?_, ?_, ?_, ?_, ?_, ?_⟩
    · simp only []
      omega
    · rw [hreg', hreg]
      simp
    · rw [hreg']
      simp [List.nodup_append, hnd, htnotin]
    · intro i hi
      simp only [] at hi ⊢
      by_cases h : i = r.count
      · subst h
        simp [TaskTracker.bindTask, ht0]
      · simp only [if_neg h]
        exact hzero i (by omega)
    · intro i hi
      simp only [] at hi ⊢
      by_cases h : i = r.count
      · subst h
        simp [TaskTracker.bindTask]
      · simp only [if_neg h]
        have hfi : (r.taskList i).Task ≠ t := by
          intro hcontra
          exact htnotin ((mem_registered r t).mpr ⟨i, by omega, hcontra⟩)
        simp only [if_neg hfi]
        exact hnot i (by omega)
    · intro q hq0 hqnot
      rw [hreg'] at hqnot
      have hq1 : q ∉ r.registered := fun h => hqnot (by simp [h])
      have hq2 : q ≠ t := fun h => hqnot (by simp [h])
      simp only [] at hqnot ⊢
      simp only [if_neg hq2]
      exact hunreg q hq0 hq1

/-- `Detach(id)` returns true on a valid id. -/
theorem detachId_fst (r : Registry) (k : Nat) (hk : k < r.count) :
    (r.detachId k).1 = true := by
  have hni : ¬ r.count ≤ k := by omega
  simp [Registry.detachId, hni]

/-- `Detach(id)` on an invalid id fails and changes nothing. -/
theorem detachId_fail (r : Registry) (k : Nat) (hk : r.count ≤ k) :
    r.detachId k = (false, r) := by
  simp [Registry.detachId, hk]

theorem registered_getElem_idx (r : Registry) (j : Nat)
    (hj : j < r.registered.length) :
    r.registered[j] = (r.taskList j).Task := by
  have hj' : j < r.count := by
    rw [registered_length] at hj
    exact hj
  simp [Registry.registered]

/-- `Detach(id)` with a valid id preserves the invariant, with the ghost
list losing the detached task. -/
theorem detachId_inv (r : Registry) (S : List Nat) (k : Nat)
    (hInv : Inv r S) (hk : k < r.count) :
    Inv (r.detachId k).2 (S.erase ((r.taskList k).Task)) := by
  obtain ⟨hcap, hcount, hreg, hnd, hzero, hnot, hunreg⟩ := hInv
  have hinj := (registered_nodup_iff r).mp hnd
  obtain ⟨hok, hcap', hcnt', htask, hN1, hN2, hN3, hN4⟩ :=
    detach_result_char r k hk hinj
  have hlen : r.registered.length = r.count := registered_length r
  have hkl : k < r.registered.length := by omega
  have hτ : r.registered.get ⟨k, hkl⟩ = (r.taskList k).Task := by
    simp [Registry.registered]
  have herase : r.registered.erase ((r.taskList k).Task) =
      r.registered.take k ++ r.registered.drop (k + 1) := by
    rw [← hτ]
    exact erase_get_nodup r.registered k hkl hnd
  have htklen : (r.registered.take k).length = k := by
    rw [List.length_take]
    omega
  have hreg' : (r.detachId k).2.registered =
      r.registered.take k ++ r.registered.drop (k + 1) := by
    apply List.ext_getElem
    · rw [registered_length, hcnt']
      rw [List.length_append, htklen, List.length_drop]
      omega
    · intro j h1 h2
      rw [registered_length, hcnt'] at h1
      rw [registered_getElem_idx _ j (by rw [registered_length, hcnt']; omega)]
      rw [htask j]
      by_cases hj : j < k
      · have hjt : j < (r.registered.take k).length := by omega
        rw [List.getElem_append_left hjt, List.getElem_take]
        rw [registered_getElem_idx r j (by omega)]
        have hc : ¬(k ≤ j ∧ j < r.count - 1) := by omega
        rw [if_neg hc]
      · have hjt : (r.registered.take k).length ≤ j := by omega
        rw [List.getElem_append_right hjt, List.getElem_drop]
        rw [registered_getElem_idx r _ (by rw [htklen]; omega)]
        rw [htklen]
        have harr : k + 1 + (j - k) = j + 1 := by omega
        rw [harr]
        have hc : k ≤ j ∧ j < r.count - 1 := by omega
        rw [if_pos hc]
  refine ⟨?_, ?_, ?_, ?_, ?_, ?_, ?_⟩
  · rw [hcap']
    exact hcap
  · rw [hcap', hcnt']
    omega
  · rw [hreg', ← hreg]
    exact herase.symm
  · rw [hreg']
    exact List.Nodup.sublist (take_drop_succ_sublist _ k hkl) hnd
  · intro i hi
    rw [hcnt'] at hi
    rw [htask i]
    by_cases h : k ≤ i ∧ i < r.count - 1
    · rw [if_pos h]
      exact hzero (i + 1) (by omega)
    · rw [if_neg h]
      exact hzero i (by omega)
  · intro i hi
    rw [hcnt'] at hi
    rw [htask i]
    by_cases h : k ≤ i
    · have hc : k ≤ i ∧ i < r.count - 1 := ⟨h, by omega⟩
      rw [if_pos hc]
      exact hN2 i h (by omega)
    · have hc : ¬(k ≤ i ∧ i < r.count - 1) := by omega
      rw [if_neg hc]
      rw [hN1 i (by omega)]
      exact hnot i (by omega)
  · intro q hq0 hqnot
    rw [hreg'] at hqnot
    by_cases hqτ : q = (r.taskList k).Task
    · subst hqτ
      exact Or.inr hN3
    · have hqreg : q ∉ r.registered := by
        intro hqin
        rw [← List.take_append_drop k r.registered,
          List.drop_eq_getElem_cons hkl, List.mem_append, List.mem_cons]
          at hqin
        rcases hqin with h | h | h
        · exact hqnot (List.mem_append.mpr (Or.inl h))
        · rw [registered_getElem_idx r k (by omega)] at h
          exact hqτ h
        · exact hqnot (List.mem_append.mpr (Or.inr h))
      have hnone : ∀ i, i < r.count → (r.taskList i).Task ≠ q := by
        intro i hi hcontra
        exact hqreg ((mem_registered r q).mpr ⟨i, hi, hcontra⟩)
      rw [hN4 q hnone]
      exact hunreg q hq0 hqreg

/-- `Detach(task)` preserves the invariant, with the ghost list losing
the task exactly on success. -/
theorem detachTask_inv (r : Registry) (S : List Nat) (t : Nat)
    (hInv : Inv r S) :
    Inv (r.detachTask t).2 (if (r.detachTask t).1 then S.erase t else S) := by
  unfold Registry.detachTask
  cases hg : r.getTaskId t with
  | none => simpa using hInv
  | some i =>
    obtain ⟨hlt, hti⟩ := getTaskId_some r t i hg
    have h1 := detachId_inv r S i hInv hlt
    have h2 := detachId_fst r i hlt
    rw [h2]
    simp only [if_pos rfl]
    rw [hti] at h1
    exact h1

/-- `Clear` preserves the invariant, emptying the ghost list. -/
theorem clear_inv (r : Registry) (S : List Nat) (hInv : Inv r S) :
    Inv r.clear [] := by
  obtain ⟨hcap, hcount, hreg, hnd, hzero, hnot, hunreg⟩ := hInv
  have hinj := (registered_nodup_iff r).mp hnd
  unfold Registry.clear
  refine ⟨?_, ?_, ?_, ?_, ?_, ?_, ?_⟩
  · simp only []
    rw [clearLoop_capacity]
    exact hcap
  · simp only []
    rw [clearLoop_capacity]
    omega
  · simp [Registry.registered]
  · simp [Registry.registered]
  · intro i hi
    exact absurd hi (by simp)
  · intro i hi
    exact absurd hi (by simp)
  · intro q hq0 _
    simp only []
    by_cases hqin : ∃ j, j < r.count ∧ (r.taskList j).Task = q
    · obtain ⟨j, hj, hjq⟩ := hqin
      right
      rw [← hjq]
      apply clearLoop_notified_in
      · omega
      · omega
      · intro m hm1 hm2 hcontra
        have := hinj m j (by omega) hj hcontra
        omega
    · rw [clearLoop_notified_other]
      · apply hunreg q hq0
        rw [mem_registered]
        exact hqin
      · intro m hm1 hm2 hcontra
        exact hqin ⟨m, by omega, hcontra⟩

/-- Every operation preserves the invariant. -/
theorem applyOp_inv (st : Registry × List Nat) (op : Op)
    (h : Inv st.1 st.2) : Inv (applyOp st op).1 (applyOp st op).2 := by
  obtain ⟨r, S⟩ := st
  cases op with
  | attach t p e ts =>
    simpa only [applyOp] using attach_inv r S t p e ts h
  | detachId i =>
    by_cases hi : i < r.count
    · have h1 := detachId_inv r S i h hi
      have h2 := detachId_fst r i hi
      simp only [applyOp]
      rw [h2]
      simp only [if_pos rfl]
      exact h1
    · have h3 := detachId_fail r i (by omega)
      simp only [applyOp]
      rw [h3]
      simpa using h
  | detachTask t =>
    simpa only [applyOp] using detachTask_inv r S t h
  | clear =>
    simpa only [applyOp] using clear_inv r S h

/-- The invariant holds after any operation sequence from any invariant
state. -/
theorem foldl_inv (ops : List Op) : ∀ (st : Registry × List Nat),
    Inv st.1 st.2 →
    Inv (ops.foldl applyOp st).1 (ops.foldl applyOp st).2 := by
  induction ops with
  | nil => intro st h; exact h
  | cons op ops ih =>
    intro st h
    exact ih (applyOp st op) (applyOp_inv st op h)

/-- C3: after any sequence of `Attach`, `Detach` and `Clear` operations
from a fresh registry (capacity within the id range), the occupied slots
form the contiguous prefix `[0, count)` with a non-null task in each; the
registered tasks equal those attach'd and not since detach'd (the ghost
list); every registered task's last `OnTaskIdUpdated` value is its
current slot index; and every other task that was ever notified last
received the sentinel id (in particular each detached task). -/
theorem C3_registry_invariants (cap : Nat) (hcap : cap ≤ TASK_INVALID_ID)
    (ops : List Op) :
    Inv (runOps cap ops).1 (runOps cap ops).2 := by
  have hinit : Inv (initRegistry cap) [] := by
    refine ⟨hcap, by simp [initRegistry], by simp [Registry.registered,
      initRegistry], by simp [Registry.registered, initRegistry],
      ?_, ?_, ?_⟩
    · intro i hi
      exact absurd hi (by simp [initRegistry])
    · intro i hi
      exact absurd hi (by simp [initRegistry])
    · intro q hq0 hqn
      left
      rfl
  exact foldl_inv ops (initRegistry cap, []) hinit

/-- Witness for C3: attach two tasks and detach the first on a 2-slot
registry. -/
theorem C3_witness :
    Inv (runOps 2 [Op.attach 1 5 true 0, Op.attach 2 3 true 0,
        Op.detachId 0]).1
      (runOps 2 [Op.attach 1 5 true 0, Op.attach 2 3 true 0,
        Op.detachId 0]).2 :=
  C3_registry_invariants 2 (by decide)
    [Op.attach 1 5 true 0, Op.attach 2 3 true 0, Op.detachId 0]

end Harmonic
